import Mathlib

/-!
Verification of the response-transformation pipeline of the ms-365-mcp-server
repository: the content normalizer (`stripHtmlTags`), the media reducers
(`removeEmbeddedImages`, `removeInlineAttachments`), the body, entity and
collection reducers (`optimizeMessageBody`, `optimizeMailMessage`,
`optimizeMailCollection`), and the page-aggregation walker inlined in
`registerGraphTools` (src/graph-tools.ts, lines 285–337).

JSON payloads are modelled by the inductive `JVal`; the JavaScript string
functions are modelled over `List Char` (one element per UTF-16 code unit of
the source's strings — all inputs considered here are in the BMP, where the
two coincide).  Regex-based global replacements are modelled by a left-to-right
scanner (`scanRepl`) with an explicit matcher per regex; this matches
`String.prototype.replace` with a `/g` regex, which finds non-overlapping
matches left to right in the original string and never rescans replacement
text.  Fields whose JavaScript value would be `undefined` are modelled as
absent, matching the JSON serialization (`JSON.stringify` drops such fields)
through which every value in this pipeline is observed.
-/

/-- A JSON value, as produced by `JSON.parse` in graph-tools.ts.  Numbers are
modelled as integers (all numeric fields in the claims are counts). -/
inductive JVal where
  | null : JVal
  | bool : Bool → JVal
  | num : Int → JVal
  | str : String → JVal
  | arr : List JVal → JVal
  | obj : List (String × JVal) → JVal
deriving Repr

/-- JavaScript truthiness of a JSON value. -/
def truthy : JVal → Bool
  | .null => false
  | .bool b => b
  | .num n => n != 0
  | .str s => s != ""
  | .arr _ => true
  | .obj _ => true

/-- Truthiness of a possibly absent (`undefined`) value. -/
def truthyO : Option JVal → Bool
  | none => false
  | some v => truthy v

/-- First binding of a key in an object's field list. -/
def lookupField : List (String × JVal) → String → Option JVal
  | [], _ => none
  | (k', v) :: rest, k => if k' = k then some v else lookupField rest k

/-- `o[k]`: property access; `undefined` (including access on a non-object)
is `none`. -/
def jget : JVal → String → Option JVal
  | .obj fs, k => lookupField fs k
  | _, _ => none

def setField : List (String × JVal) → String → JVal → List (String × JVal)
  | [], k, v => [(k, v)]
  | (k', v') :: rest, k, v =>
    if k' = k then (k, v) :: rest else (k', v') :: setField rest k v

/-- `o[k] = v`: replaces an existing binding in place, appends a new one —
exactly JavaScript property-assignment order.  Assignment to a non-object is
never reached by the modelled code. -/
def jset : JVal → String → JVal → JVal
  | .obj fs, k, v => .obj (setField fs k v)
  | j, _, _ => j

/-- `delete o[k]`.  The modelled code only builds objects with distinct keys,
for which removing every binding of `k` is the JavaScript behaviour. -/
def jdelete : JVal → String → JVal
  | .obj fs, k => .obj (fs.filter (fun p => p.1 != k))
  | j, _ => j

/-- Builds an object literal some of whose values may be `undefined`;
such fields are dropped, as `JSON.stringify` would drop them. -/
def objOpt (fs : List (String × Option JVal)) : JVal :=
  .obj (fs.filterMap (fun p => p.2.map (fun v => (p.1, v))))

/-- `.length` of a value: defined for arrays and strings, `undefined`
otherwise. -/
def jlenOpt : JVal → Option Nat
  | .arr xs => some xs.length
  | .str s => some s.data.length
  | _ => none

theorem jget_jset_self (fs : List (String × JVal)) (k : String) (v : JVal) :
    jget (jset (.obj fs) k v) k = some v := by
  induction fs with
  | nil => simp [jget, jset, setField, lookupField]
  | cons p rest ih =>
    by_cases h : p.1 = k
    · simp [jget, jset, setField, lookupField, h]
    · simpa [jget, jset, setField, lookupField, h] using ih

theorem jget_jset_ne (o : JVal) (k k' : String) (v : JVal) (h : k' ≠ k) :
    jget (jset o k v) k' = jget o k' := by
  have hkk : ¬(k = k') := fun hk => h hk.symm
  cases o with
  | obj fs =>
    induction fs with
    | nil => simp [jget, jset, setField, lookupField, hkk]
    | cons p rest ih =>
      by_cases hp : p.1 = k
      · simp [jget, jset, setField, lookupField, hp, hkk, Ne.symm h]
      · by_cases hq : p.1 = k'
        · simp [jget, jset, setField, lookupField, hp, hq, h]
        · simpa [jget, jset, setField, lookupField, hp, hq] using ih
  | null => rfl
  | bool b => rfl
  | num n => rfl
  | str s => rfl
  | arr xs => rfl

theorem jget_jdelete_self (o : JVal) (k : String) :
    jget (jdelete o k) k = none := by
  cases o with
  | obj fs =>
    induction fs with
    | nil => simp [jget, jdelete, lookupField]
    | cons p rest ih =>
      by_cases hp : p.1 = k
      · simpa [jget, jdelete, List.filter_cons, hp, lookupField] using ih
      · simpa [jget, jdelete, List.filter_cons, hp, lookupField] using ih
  | null => rfl
  | bool b => rfl
  | num n => rfl
  | str s => rfl
  | arr xs => rfl

theorem jget_jdelete_ne (o : JVal) (k k' : String) (h : k' ≠ k) :
    jget (jdelete o k) k' = jget o k' := by
  cases o with
  | obj fs =>
    induction fs with
    | nil => simp [jget, jdelete, lookupField]
    | cons p rest ih =>
      by_cases hp : p.1 = k
      · have hq : p.1 ≠ k' := by
          rw [hp]; exact Ne.symm h
        simpa [jget, jdelete, List.filter_cons, hp, lookupField, hq, Ne.symm h] using ih
      · by_cases hq : p.1 = k'
        · simp [jget, jdelete, List.filter_cons, hp, lookupField, hq, h]
        · simpa [jget, jdelete, List.filter_cons, hp, lookupField, hq] using ih
  | null => rfl
  | bool b => rfl
  | num n => rfl
  | str s => rfl
  | arr xs => rfl

/-- Objects stay objects under property assignment. -/
theorem jset_obj (fs : List (String × JVal)) (k : String) (v : JVal) :
    ∃ gs, jset (.obj fs) k v = .obj gs := ⟨setField fs k v, rfl⟩

/-! ## 2. Character-level string machinery (response-optimizer.ts) -/

/-- The characters matched by the regex class `\s` (and trimmed by
`String.prototype.trim`); the ASCII whitespace characters plus no-break space
and BOM, which are the ones that can occur in the modelled payloads. -/
def isJsSpace (c : Char) : Bool :=
  c = ' ' || c = '\t' || c = '\n' || c = '\r' || c = '\x0b' || c = '\x0c' ||
  c = '\u00a0' || c = '\ufeff'

/-- Case-insensitive literal match (`/i` flag): the pattern is given in lower
case; returns the remainder after the match. -/
def ciStarts : List Char → List Char → Option (List Char)
  | [], l => some l
  | _ :: _, [] => none
  | p :: ps, c :: cs => if c.toLower = p then ciStarts ps cs else none

/-- Case-sensitive literal match; returns the remainder after the match. -/
def litStarts : List Char → List Char → Option (List Char)
  | [], l => some l
  | _ :: _, [] => none
  | p :: ps, c :: cs => if c = p then litStarts ps cs else none

/-- One global-replace pass: scan left to right, at each position try the
matcher (which returns the remainder after a match); on a match emit the
replacement and continue after the match, otherwise keep the character.  The
fuel argument is always called with at least the list's length, which is
enough because every matcher used here consumes at least one character. -/
def scanRepl (m : List Char → Option (List Char)) (rep : List Char) :
    Nat → List Char → List Char
  | _, [] => []
  | 0, l => l
  | fuel + 1, c :: cs =>
    match m (c :: cs) with
    | some rest => rep ++ scanRepl m rep fuel rest
    | none => c :: scanRepl m rep fuel cs

/-- Remainder after the first `>` — the tail of a `<[^>]*>` match. -/
def afterGt : List Char → Option (List Char)
  | [] => none
  | '>' :: r => some r
  | _ :: cs => afterGt cs

/-- Matcher for `/<br\s*\/?>/gi`. -/
def brMatch : List Char → Option (List Char)
  | '<' :: rest =>
    match ciStarts ['b', 'r'] rest with
    | some r1 =>
      match r1.dropWhile isJsSpace with
      | '/' :: '>' :: r => some r
      | '>' :: r => some r
      | _ => none
    | none => none
  | _ => none

/-- Matcher for `/<\/p>/gi`. -/
def pCloseMatch : List Char → Option (List Char)
  | '<' :: '/' :: rest => ciStarts ['p', '>'] rest
  | _ => none

/-- Matcher for `/<\/div>/gi`. -/
def divCloseMatch : List Char → Option (List Char)
  | '<' :: '/' :: rest => ciStarts ['d', 'i', 'v', '>'] rest
  | _ => none

/-- Matcher for `/<[^>]*>/g`: a `<` with a later `>` matches up to the first
such `>`. -/
def tagMatch : List Char → Option (List Char)
  | '<' :: cs => afterGt cs
  | _ => none

/-- Matcher for `/\r\n/g`. -/
def crlfMatch : List Char → Option (List Char)
  | '\r' :: '\n' :: r => some r
  | _ => none

/-- Matcher for `/\r/g`. -/
def crMatch : List Char → Option (List Char)
  | '\r' :: r => some r
  | _ => none

/-- The longest all-whitespace run that ends with a newline: remainder after
that last newline.  This is the backtracking of `\s*\n` after the leading
`\n` of `/\n\s*\n/`: `\s*` is greedy, and the final `\n` lands on the last
newline inside the whitespace run. -/
def nlTail : List Char → Option (List Char)
  | [] => none
  | c :: cs =>
    if isJsSpace c then
      match nlTail cs with
      | some r => some r
      | none => if c = '\n' then some cs else none
    else none

/-- Matcher for `/\n\s*\n/g`. -/
def nlMatch : List Char → Option (List Char)
  | '\n' :: cs => nlTail cs
  | _ => none

/-- `String.prototype.trim`. -/
def trimL (l : List Char) : List Char :=
  (((l.dropWhile isJsSpace).reverse).dropWhile isJsSpace).reverse

/-- `stripHtmlTags` (response-optimizer.ts, lines 50–74), over char lists:
line-break-producing tags to `\n`, all remaining tags removed, the six named
entities decoded, CR/LF normalisation, blank-line collapsing, trim. -/
def stripHtmlTagsL (l : List Char) : List Char :=
  if l = [] then [] else
  let t1 := scanRepl brMatch ['\n'] l.length l
  let t2 := scanRepl pCloseMatch ['\n'] t1.length t1
  let t3 := scanRepl divCloseMatch ['\n'] t2.length t2
  let t4 := scanRepl tagMatch [] t3.length t3
  let t5 := scanRepl (litStarts "&nbsp;".data) [' '] t4.length t4
  let t6 := scanRepl (litStarts "&amp;".data) ['&'] t5.length t5
  let t7 := scanRepl (litStarts "&lt;".data) ['<'] t6.length t6
  let t8 := scanRepl (litStarts "&gt;".data) ['>'] t7.length t7
  let t9 := scanRepl (litStarts "&quot;".data) ['"'] t8.length t8
  let t10 := scanRepl (litStarts "&#39;".data) ['\''] t9.length t9
  let t11 := scanRepl crlfMatch ['\n'] t10.length t10
  let t12 := scanRepl crMatch ['\n'] t11.length t11
  let t13 := scanRepl nlMatch ['\n', '\n'] t12.length t12
  trimL t13

/-- `stripHtmlTags`, the content normalizer's tag-stripping pass. -/
def stripHtmlTags (s : String) : String := ⟨stripHtmlTagsL s.data⟩

/-- Attempt of the part of `/<img[^>]*src\s*=\s*["'](data|cid):[^"']*["'][^>]*>/gi`
that follows the `[^>]*` gap: `src`, `\s*=\s*`, an opening quote, the scheme,
the quoted remainder, a closing quote, then everything up to the first `>`. -/
def imgAttempt (scheme : List Char) (l : List Char) : Option (List Char) :=
  match ciStarts ['s', 'r', 'c'] l with
  | none => none
  | some r1 =>
    match r1.dropWhile isJsSpace with
    | '=' :: r3 =>
      match r3.dropWhile isJsSpace with
      | q :: r5 =>
        if q = '"' || q = '\'' then
          match ciStarts scheme r5 with
          | none => none
          | some r6 =>
            match r6.dropWhile (fun c => !(c = '"' || c = '\'')) with
            | q2 :: r8 => if q2 = '"' || q2 = '\'' then afterGt r8 else none
            | [] => none
        else none
      | [] => none
    | _ => none

/-- Backtracking over the greedy `[^>]*` gap after `<img`: the gap length is
tried from longest to shortest; the first success wins. -/
def imgTry (scheme : List Char) (rest : List Char) : Nat → Option (List Char)
  | 0 => imgAttempt scheme rest
  | k + 1 =>
    match imgAttempt scheme (rest.drop (k + 1)) with
    | some r => some r
    | none => imgTry scheme rest k

/-- Matcher for `/<img[^>]*src\s*=\s*["']SCHEME[^"']*["'][^>]*>/gi` where
`SCHEME` is `data:` or `cid:`. -/
def imgMatch (scheme : List Char) (l : List Char) : Option (List Char) :=
  match ciStarts ['<', 'i', 'm', 'g'] l with
  | none => none
  | some rest => imgTry scheme rest ((rest.takeWhile (fun c => c != '>')).length)

/-- `removeEmbeddedImages` (response-optimizer.ts, lines 79–84), over char
lists. -/
def removeEmbeddedImagesL (l : List Char) : List Char :=
  if l = [] then l
  else scanRepl (imgMatch "data:".data) "[IMAGE_REMOVED]".data l.length l

/-- `removeEmbeddedImages`: `<img>` tags with a `data:` source become the
literal marker `[IMAGE_REMOVED]`. -/
def removeEmbeddedImages (s : String) : String := ⟨removeEmbeddedImagesL s.data⟩

/-- `removeInlineAttachments` (response-optimizer.ts, lines 89–94), over char
lists. -/
def removeInlineAttachmentsL (l : List Char) : List Char :=
  if l = [] then l
  else scanRepl (imgMatch "cid:".data) "[ATTACHMENT_REMOVED]".data l.length l

/-- `removeInlineAttachments`: `<img>` tags with a `cid:` source become the
literal marker `[ATTACHMENT_REMOVED]`. -/
def removeInlineAttachments (s : String) : String :=
  ⟨removeInlineAttachmentsL s.data⟩

example : stripHtmlTags "<p>Hello <b>world</b>!</p><br/><div>Test</div>" =
    "Hello world!\n\nTest" := by rfl

example : stripHtmlTags "Hello &amp; welcome &quot;friend&quot; &lt;test&gt;" =
    "Hello & welcome \"friend\" <test>" := by rfl

example : removeEmbeddedImages
    "<p>Text</p><img src=\"data:image/png;base64,abc123\"/><p>More text</p>" =
    "<p>Text</p>[IMAGE_REMOVED]<p>More text</p>" := by rfl

example : removeInlineAttachments
    "<p>Text</p><img src=\"cid:image001.jpg@01D26CD8.6C05F070\"/><p>More text</p>" =
    "<p>Text</p>[ATTACHMENT_REMOVED]<p>More text</p>" := by rfl

/-! ## 3. Normalizer lemmas: behaviour on markup-free input -/

theorem scanRepl_eq_self_of_head (m : List Char → Option (List Char))
    (rep : List Char) (a : Char)
    (hm : ∀ c cs, c ≠ a → m (c :: cs) = none) :
    ∀ (l : List Char) (fuel : Nat), a ∉ l → scanRepl m rep fuel l = l := by
  intro l
  induction l with
  | nil => intro fuel _; cases fuel <;> rfl
  | cons c cs ih =>
    intro fuel hmem
    cases fuel with
    | zero => rfl
    | succ fuel =>
      have hc : c ≠ a := fun hca => hmem (hca ▸ List.mem_cons_self c cs)
      have hcs : a ∉ cs := fun hin => hmem (List.mem_cons_of_mem c hin)
      simp [scanRepl, hm c cs hc, ih fuel hcs]

theorem brMatch_ne (c : Char) (cs : List Char) (h : c ≠ '<') :
    brMatch (c :: cs) = none := by
  unfold brMatch
  split
  · rename_i heq; injection heq with h1 _; exact absurd h1 h
  · rfl

theorem pCloseMatch_ne (c : Char) (cs : List Char) (h : c ≠ '<') :
    pCloseMatch (c :: cs) = none := by
  unfold pCloseMatch
  split
  · rename_i heq; injection heq with h1 _; exact absurd h1 h
  · rfl

theorem divCloseMatch_ne (c : Char) (cs : List Char) (h : c ≠ '<') :
    divCloseMatch (c :: cs) = none := by
  unfold divCloseMatch
  split
  · rename_i heq; injection heq with h1 _; exact absurd h1 h
  · rfl

theorem tagMatch_ne (c : Char) (cs : List Char) (h : c ≠ '<') :
    tagMatch (c :: cs) = none := by
  unfold tagMatch
  split
  · rename_i heq; injection heq with h1 _; exact absurd h1 h
  · rfl

theorem litStarts_ne (p : Char) (ps : List Char) (c : Char) (cs : List Char)
    (h : c ≠ p) : litStarts (p :: ps) (c :: cs) = none := by
  simp [litStarts, h]

theorem crlfMatch_ne (c : Char) (cs : List Char) (h : c ≠ '\r') :
    crlfMatch (c :: cs) = none := by
  unfold crlfMatch
  split
  · rename_i heq; injection heq with h1 _; exact absurd h1 h
  · rfl

theorem crMatch_ne (c : Char) (cs : List Char) (h : c ≠ '\r') :
    crMatch (c :: cs) = none := by
  unfold crMatch
  split
  · rename_i heq; injection heq with h1 _; exact absurd h1 h
  · rfl

theorem nlMatch_ne (c : Char) (cs : List Char) (h : c ≠ '\n') :
    nlMatch (c :: cs) = none := by
  unfold nlMatch
  split
  · rename_i heq; injection heq with h1 _; exact absurd h1 h
  · rfl

theorem mem_dropWhile {p : Char → Bool} {l : List Char} {c : Char}
    (h : c ∈ l.dropWhile p) : c ∈ l := by
  induction l with
  | nil => simp [List.dropWhile] at h
  | cons x xs ih =>
    by_cases hx : p x
    · exact List.mem_cons_of_mem x (ih (by simpa [List.dropWhile, hx] using h))
    · simpa [List.dropWhile, hx] using h

theorem mem_trimL {l : List Char} {c : Char} (h : c ∈ trimL l) : c ∈ l := by
  unfold trimL at h
  rw [List.mem_reverse] at h
  have h2 := mem_dropWhile h
  rw [List.mem_reverse] at h2
  exact mem_dropWhile h2

theorem dropWhile_head_false {p : Char → Bool} {l : List Char} {c : Char}
    {cs : List Char} (h : l.dropWhile p = c :: cs) : p c = false := by
  induction l with
  | nil => simp [List.dropWhile] at h
  | cons x xs ih =>
    by_cases hx : p x
    · exact ih (by simpa [List.dropWhile, hx] using h)
    · rw [List.dropWhile_cons_of_neg hx] at h
      cases h
      simpa using hx

theorem dropWhile_eq_self_of_head {p : Char → Bool} {l : List Char}
    (h : ∀ c cs, l = c :: cs → p c = false) : l.dropWhile p = l := by
  cases l with
  | nil => rfl
  | cons c cs => rw [List.dropWhile_cons_of_neg (by simp [h c cs rfl])]

theorem trimL_idem (l : List Char) : trimL (trimL l) = trimL l := by
  have headA : ∀ c cs, trimL l = c :: cs → isJsSpace c = false := by
    intro c cs h
    -- `trimL l` is a prefix of `l.dropWhile isJsSpace`, whose head is not a
    -- space, so the head of `trimL l` is not a space either
    have hpre : (l.dropWhile isJsSpace).reverse =
        ((l.dropWhile isJsSpace).reverse.takeWhile isJsSpace) ++
        ((l.dropWhile isJsSpace).reverse.dropWhile isJsSpace) :=
      (List.takeWhile_append_dropWhile (p := isJsSpace) _).symm
    have hl : l.dropWhile isJsSpace =
        ((l.dropWhile isJsSpace).reverse.dropWhile isJsSpace).reverse ++
        ((l.dropWhile isJsSpace).reverse.takeWhile isJsSpace).reverse := by
      have h2 := congrArg List.reverse hpre
      rw [List.reverse_reverse, List.reverse_append] at h2
      exact h2
    rw [show ((l.dropWhile isJsSpace).reverse.dropWhile isJsSpace).reverse =
        trimL l from rfl, h] at hl
    exact dropWhile_head_false hl
  show (((trimL l).dropWhile isJsSpace).reverse.dropWhile isJsSpace).reverse =
      trimL l
  rw [dropWhile_eq_self_of_head headA]
  have hrev : (trimL l).reverse =
      (l.dropWhile isJsSpace).reverse.dropWhile isJsSpace := by
    unfold trimL; rw [List.reverse_reverse]
  rw [hrev, List.dropWhile_idempotent]
  rfl

/-- On input containing none of `<`, `&`, CR, LF, every replacement pass of
`stripHtmlTags` is the identity and only the final trim remains. -/
theorem stripHtmlTagsL_eq_trimL (l : List Char)
    (hlt : '<' ∉ l) (hamp : '&' ∉ l) (hcr : '\r' ∉ l) (hnl : '\n' ∉ l) :
    stripHtmlTagsL l = trimL l := by
  by_cases h0 : l = []
  · subst h0; rfl
  · have e1 : scanRepl brMatch ['\n'] l.length l = l :=
      scanRepl_eq_self_of_head _ _ '<' brMatch_ne l l.length hlt
    have e2 : scanRepl pCloseMatch ['\n'] l.length l = l :=
      scanRepl_eq_self_of_head _ _ '<' pCloseMatch_ne l l.length hlt
    have e3 : scanRepl divCloseMatch ['\n'] l.length l = l :=
      scanRepl_eq_self_of_head _ _ '<' divCloseMatch_ne l l.length hlt
    have e4 : scanRepl tagMatch [] l.length l = l :=
      scanRepl_eq_self_of_head _ _ '<' tagMatch_ne l l.length hlt
    have e5 : scanRepl (litStarts "&nbsp;".data) [' '] l.length l = l :=
      scanRepl_eq_self_of_head _ _ '&'
        (fun c cs h => litStarts_ne '&' "nbsp;".data c cs h) l l.length hamp
    have e6 : scanRepl (litStarts "&amp;".data) ['&'] l.length l = l :=
      scanRepl_eq_self_of_head _ _ '&'
        (fun c cs h => litStarts_ne '&' "amp;".data c cs h) l l.length hamp
    have e7 : scanRepl (litStarts "&lt;".data) ['<'] l.length l = l :=
      scanRepl_eq_self_of_head _ _ '&'
        (fun c cs h => litStarts_ne '&' "lt;".data c cs h) l l.length hamp
    have e8 : scanRepl (litStarts "&gt;".data) ['>'] l.length l = l :=
      scanRepl_eq_self_of_head _ _ '&'
        (fun c cs h => litStarts_ne '&' "gt;".data c cs h) l l.length hamp
    have e9 : scanRepl (litStarts "&quot;".data) ['"'] l.length l = l :=
      scanRepl_eq_self_of_head _ _ '&'
        (fun c cs h => litStarts_ne '&' "quot;".data c cs h) l l.length hamp
    have e10 : scanRepl (litStarts "&#39;".data) ['\''] l.length l = l :=
      scanRepl_eq_self_of_head _ _ '&'
        (fun c cs h => litStarts_ne '&' "#39;".data c cs h) l l.length hamp
    have e11 : scanRepl crlfMatch ['\n'] l.length l = l :=
      scanRepl_eq_self_of_head _ _ '\r' crlfMatch_ne l l.length hcr
    have e12 : scanRepl crMatch ['\n'] l.length l = l :=
      scanRepl_eq_self_of_head _ _ '\r' crMatch_ne l l.length hcr
    have e13 : scanRepl nlMatch ['\n', '\n'] l.length l = l :=
      scanRepl_eq_self_of_head _ _ '\n' nlMatch_ne l l.length hnl
    simp only [stripHtmlTagsL, if_neg h0, e1, e2, e3, e4, e5, e6, e7, e8, e9,
      e10, e11, e12, e13]

/-! ## 4. Configuration and the reducers (response-optimizer.ts) -/

/-- `OptimizationConfig` (response-optimizer.ts, lines 6–19).  The two size
fields are naturals, per the configuration invariant (both are positive
counts; the defaults are 2000 and 50). -/
structure OptimizationConfig where
  maxHtmlContentSize : Nat
  stripHtmlToText : Bool
  removeEmbeddedImages : Bool
  removeInlineAttachments : Bool
  mailSelectFields : List String
  maxItemsInCollection : Nat

/-- `DEFAULT_LLM_OPTIMIZATION` (response-optimizer.ts, lines 24–45). -/
def DEFAULT_LLM_OPTIMIZATION : OptimizationConfig where
  maxHtmlContentSize := 2000
  stripHtmlToText := true
  removeEmbeddedImages := true
  removeInlineAttachments := true
  mailSelectFields :=
    ["id", "subject", "sender", "from", "toRecipients", "ccRecipients",
     "receivedDateTime", "sentDateTime", "hasAttachments", "importance",
     "isRead", "bodyPreview", "body"]
  maxItemsInCollection := 50

/-- The media-reduction part of `optimizeMessageBody` (lines 107–115):
embedded images, then inline attachments, each gated by its flag. -/
def mediaReduced (cfg : OptimizationConfig) (c : String) : String :=
  let c1 := if cfg.removeEmbeddedImages then removeEmbeddedImages c else c
  if cfg.removeInlineAttachments then removeInlineAttachments c1 else c1

/-- `content.includes('<')`. -/
def containsLt (c : String) : Bool := c.data.contains '<'

/-- `body.contentType === 'html'` — a strict, case-sensitive comparison. -/
def contentTypeIsHtml (body : JVal) : Bool :=
  match jget body "contentType" with
  | some (.str "html") => true
  | _ => false

/-- The final truncation step of `optimizeMessageBody` (lines 126–128):
`content.substring(0, maxHtmlContentSize) + '...[TRUNCATED]'` when the
content is still too long. -/
def truncateContent (cfg : OptimizationConfig) (c : String) : String :=
  if cfg.maxHtmlContentSize < c.data.length then
    ⟨c.data.take cfg.maxHtmlContentSize ++ "...[TRUNCATED]".data⟩
  else c

/-- The tag-stripping condition of `optimizeMessageBody` (lines 117–119):
`(config.stripHtmlToText || content.length > config.maxHtmlContentSize) &&
(body.contentType === 'html' || content.includes('<'))`, where `content` is
the media-reduced content. -/
def stripCondition (cfg : OptimizationConfig) (body : JVal) (c2 : String) :
    Bool :=
  (cfg.stripHtmlToText || decide (cfg.maxHtmlContentSize < c2.data.length)) &&
  (contentTypeIsHtml body || containsLt c2)

/-- `optimizeMessageBody` (response-optimizer.ts, lines 99–134).  The guard
`!body || typeof body !== 'object'` passes the value through unless it is an
object (the modelled payloads never put an array in `body`); `body.content &&
typeof body.content === 'string'` skips the whole block for an absent,
non-string, or empty-string content. -/
def optimizeMessageBody (body : JVal) (cfg : OptimizationConfig) : JVal :=
  match body with
  | .obj _ =>
    match jget body "content" with
    | some (.str c) =>
      if c = "" then body
      else
        let c2 := mediaReduced cfg c
        let strip := stripCondition cfg body c2
        let c3 := if strip then stripHtmlTags c2 else c2
        let b1 := if strip then jset body "contentType" (.str "text") else body
        jset b1 "content" (.str (truncateContent cfg c3))
    | _ => body
  | _ => body

/-- The fixed denylist deleted by `optimizeMailMessage` (lines 150–158). -/
def deletedFields : List String :=
  ["conversationId", "conversationIndex", "internetMessageId", "webLink",
   "changeKey", "parentFolderId", "inferenceClassification", "flag",
   "categories"]

/-- One recipient entry rewritten by `optimizeMailMessage` (lines 163–166):
`{name: recipient.emailAddress?.name, address: recipient.emailAddress?.address}`;
fields that come out `undefined` are dropped (as serialization would). -/
def flattenRecipient (r : JVal) : JVal :=
  objOpt [("name", (jget r "emailAddress").bind (fun e => jget e "name")),
          ("address", (jget r "emailAddress").bind (fun e => jget e "address"))]

/-- The per-field recipient rewrite (lines 161–168): only applied when the
field is present and an array. -/
def mapRecipientField (m : JVal) (field : String) : JVal :=
  match jget m field with
  | some (.arr rs) => jset m field (.arr (rs.map flattenRecipient))
  | _ => m

/-- The `sender`/`from` flattening (lines 171–178): applied when the field's
`emailAddress` is truthy. -/
def flattenSenderField (m : JVal) (field : String) : JVal :=
  match jget m field with
  | some v =>
    match jget v "emailAddress" with
    | some ea =>
      if truthy ea then
        jset m field
          (objOpt [("name", jget ea "name"), ("address", jget ea "address")])
      else m
    | none => m
  | none => m

/-- The body-optimization step of `optimizeMailMessage` (lines 145–147):
`if (message.body) { optimized.body = optimizeMessageBody(...) }`. -/
def bodyStep (message : JVal) (cfg : OptimizationConfig) : JVal :=
  match jget message "body" with
  | some b =>
    if truthy b then jset message "body" (optimizeMessageBody b cfg)
    else message
  | none => message

/-- `optimizeMailMessage` (response-optimizer.ts, lines 139–181). -/
def optimizeMailMessage (message : JVal) (cfg : OptimizationConfig) : JVal :=
  match message with
  | .obj _ =>
    let m1 := bodyStep message cfg
    let m2 := deletedFields.foldl jdelete m1
    let m3 :=
      ["toRecipients", "ccRecipients", "bccRecipients"].foldl
        mapRecipientField m2
    ["sender", "from"].foldl flattenSenderField m3
  | _ => message

/-- `optimizeMailCollection` (response-optimizer.ts, lines 186–209). -/
def optimizeMailCollection (response : JVal) (cfg : OptimizationConfig) :
    JVal :=
  match response with
  | .obj _ =>
    match jget response "value" with
    | some (.arr items) =>
      let kept :=
        if cfg.maxItemsInCollection < items.length then
          items.take cfg.maxItemsInCollection
        else items
      let o1 :=
        jset response "value" (.arr (kept.map (fun m => optimizeMailMessage m cfg)))
      if truthyO (jget o1 "@odata.count") then
        jset o1 "@odata.count" (.num (kept.map (fun m => optimizeMailMessage m cfg)).length)
      else o1
    | _ => response
  | _ => response

example :
    optimizeMessageBody
      (.obj [("contentType", .str "html"),
        ("content", .str "<p>Hello <b>world</b>!</p><img src=\"data:image/png;base64,abc123\"/>")])
      DEFAULT_LLM_OPTIMIZATION =
    .obj [("contentType", .str "text"),
      ("content", .str "Hello world!\n[IMAGE_REMOVED]")] := by rfl

/-! ## 5. The page-aggregation walker (graph-tools.ts, lines 285–337) -/

/-- Outcome of one `graphClient.graphRequest` + `JSON.parse` round trip for a
continuation link: a parsed page, a response without content (the `else
break` branch), or a thrown error (transport error, invalid URL, or a parse
error). -/
inductive FetchOutcome where
  | page (j : JVal)
  | empty
  | error

/-- How the `while (nextLink)` loop ends: normally (`fin`, with the final
`allItems`, `pageCount`, number of fetches made, and whether the 100-page
bound was the reason to stop), or by a thrown error that aborts the whole
`try` block. -/
inductive WalkEnd where
  | fin (allItems : JVal) (pageCount fetches : Nat) (aborted : Bool)
  | err (fetches : Nat)

/-- `allItems.concat(nextJsonResponse.value)`: both sides are arrays whenever
this is reached on the modelled payloads. -/
def jconcat (a b : JVal) : JVal :=
  match a, b with
  | .arr xs, .arr ys => .arr (xs ++ ys)
  | _, _ => a

/-- The `while (nextLink)` loop (lines 292–321).  `fuel` is an upper bound on
the remaining iterations, used only to make the recursion structural; the
caller passes 100, which the `pageCount > 100` break never lets the loop
exhaust. -/
def walkAux (fetch : JVal → FetchOutcome) :
    Nat → JVal → Option JVal → Nat → Nat → WalkEnd
  | 0, allItems, _, pageCount, fetches => .fin allItems pageCount fetches false
  | fuel + 1, allItems, nextLink, pageCount, fetches =>
    if truthyO nextLink then
      match fetch (nextLink.getD .null) with
      | .error => .err (fetches + 1)
      | .empty => .fin allItems pageCount (fetches + 1) false
      | .page j =>
        let allItems' :=
          match jget j "value" with
          | some (.arr xs) => jconcat allItems (.arr xs)
          | _ => allItems
        let nextLink' := jget j "@odata.nextLink"
        if 100 < pageCount + 1 then
          .fin allItems' (pageCount + 1) (fetches + 1) true
        else walkAux fetch fuel allItems' nextLink' (pageCount + 1) (fetches + 1)
    else .fin allItems pageCount fetches false

/-- The write-back after the loop (lines 323–327): set `value`, update a
truthy `@odata.count` to `allItems.length` (assigning the `undefined` length
of a non-array is modelled as removal, which is what serialization shows),
and delete `@odata.nextLink`. -/
def finishCombined (firstPage items : JVal) : JVal :=
  let c1 := jset firstPage "value" items
  let c2 :=
    if truthyO (jget c1 "@odata.count") then
      match jlenOpt items with
      | some n => jset c1 "@odata.count" (.num n)
      | none => jdelete c1 "@odata.count"
    else c1
  jdelete c2 "@odata.nextLink"

/-- The observable outcome of the `fetchAllPages` aggregation: the JSON value
written back into the response text, plus the loop's counters.  When the walk
threw (`errored`), the `catch` at line 334 only logs, so the response text is
still the original first page. -/
structure AggResult where
  result : JVal
  pageCount : Nat
  fetches : Nat
  errored : Bool
  aborted : Bool

/-- The whole aggregation of lines 286–333, starting from the parsed first
page. -/
def aggregateAllPages (fetch : JVal → FetchOutcome) (firstPage : JVal) :
    AggResult :=
  let allItems0 :=
    match jget firstPage "value" with
    | some v => if truthy v then v else .arr []
    | none => .arr []
  let nextLink0 := jget firstPage "@odata.nextLink"
  match walkAux fetch 100 allItems0 nextLink0 1 0 with
  | .fin items pc f ab =>
    ⟨finishCombined firstPage items, pc, f, false, ab⟩
  | .err f => ⟨firstPage, 1, f, true, false⟩

/-- The items contributed by the next `n` fetched pages of a chain in which
every fetch parses to a page. -/
def chainItems (fetch : JVal → FetchOutcome) : Nat → JVal → List JVal
  | 0, _ => []
  | n + 1, tok =>
    match fetch tok with
    | .page j =>
      (match jget j "value" with
       | some (.arr xs) => xs
       | _ => []) ++
      chainItems fetch n ((jget j "@odata.nextLink").getD .null)
    | _ => []

/-- A finite chain: starting from `tok?`, the continuation tokens run out
within `n` fetches, every fetched page parses and carries an items array.
Returns the per-page item lists, in fetch order. -/
def chainFin (fetch : JVal → FetchOutcome) :
    Nat → Option JVal → Option (List (List JVal))
  | 0, tok? => if truthyO tok? then none else some []
  | n + 1, tok? =>
    if truthyO tok? then
      match fetch (tok?.getD .null) with
      | .page j =>
        match jget j "value" with
        | some (.arr xs) =>
          (chainFin fetch n (jget j "@odata.nextLink")).map (fun r => xs :: r)
        | _ => none
      | _ => none
    else some []

/-- Within `n` fetches, walking from `tok?` runs into a fetch (or parse)
error. -/
def chainHitsError (fetch : JVal → FetchOutcome) : Nat → Option JVal → Bool
  | 0, _ => false
  | n + 1, tok? =>
    truthyO tok? &&
      match fetch (tok?.getD .null) with
      | .error => true
      | .empty => false
      | .page j => chainHitsError fetch n (jget j "@odata.nextLink")

/-- The items a fetched page contributes to the accumulation: its `value`
when that is an array, nothing otherwise. -/
def pageItems (j : JVal) : List JVal :=
  match jget j "value" with
  | some (.arr xs) => xs
  | _ => []

/-- A finite chain of parsed pages: starting from `tok?`, the continuation
tokens run out within `n` fetches and every fetch parses to a page — which
may or may not carry an items array.  Returns the fetched pages, in fetch
order. -/
def chainPages (fetch : JVal → FetchOutcome) :
    Nat → Option JVal → Option (List JVal)
  | 0, tok? => if truthyO tok? then none else some []
  | n + 1, tok? =>
    if truthyO tok? then
      match fetch (tok?.getD .null) with
      | .page j =>
        (chainPages fetch n (jget j "@odata.nextLink")).map (fun r => j :: r)
      | _ => none
    else some []

/-! ## 6. Walker loop lemmas -/

theorem walkAux_chainFin (fetch : JVal → FetchOutcome) :
    ∀ (n : Nat) (tok? : Option JVal) (pagess : List (List JVal))
      (fuel pc f0 : Nat) (acc : List JVal),
      chainFin fetch n tok? = some pagess → n ≤ fuel → pc + n ≤ 100 →
      walkAux fetch fuel (.arr acc) tok? pc f0 =
        .fin (.arr (acc ++ pagess.flatten)) (pc + pagess.length)
          (f0 + pagess.length) false := by
  intro n
  induction n with
  | zero =>
    intro tok? pagess fuel pc f0 acc hchain _ _
    by_cases ht : truthyO tok? = true
    · simp [chainFin, ht] at hchain
    · have ht' : truthyO tok? = false := by simpa using ht
      rw [chainFin, if_neg (by simp [ht'])] at hchain
      cases hchain
      cases fuel with
      | zero => simp [walkAux]
      | succ fuel => simp [walkAux, ht']
  | succ n ih =>
    intro tok? pagess fuel pc f0 acc hchain hfuel hpc
    by_cases ht : truthyO tok? = true
    · rw [chainFin, if_pos ht] at hchain
      cases fuel with
      | zero => omega
      | succ fuel =>
        rcases hfetch : fetch (tok?.getD .null) with j | _ | _
        · simp only [hfetch] at hchain
          rcases hval : jget j "value" with _ | v
          · simp [hval] at hchain
          · rcases v with _ | b | i | s | xs | fs
            · simp [hval] at hchain
            · simp [hval] at hchain
            · simp [hval] at hchain
            · simp [hval] at hchain
            · simp only [hval] at hchain
              rcases Option.map_eq_some'.mp hchain with ⟨rest, hrest, hpagess⟩
              subst hpagess
              rw [walkAux, if_pos ht, hfetch]
              simp only [hval, jconcat]
              have hnb : ¬(100 < pc + 1) := by omega
              rw [if_neg hnb]
              rw [ih (jget j "@odata.nextLink") rest fuel (pc + 1) (f0 + 1)
                (acc ++ xs) hrest (by omega) (by omega)]
              simp [List.append_assoc]
              omega
            · simp [hval] at hchain
        · simp [hfetch] at hchain
        · simp [hfetch] at hchain
    · have ht' : truthyO tok? = false := by simpa using ht
      rw [chainFin, if_neg (by simp [ht'])] at hchain
      cases hchain
      cases fuel with
      | zero => simp [walkAux]
      | succ fuel => simp [walkAux, ht']

theorem walkAux_chainPages (fetch : JVal → FetchOutcome) :
    ∀ (n : Nat) (tok? : Option JVal) (pages : List JVal)
      (fuel pc f0 : Nat) (acc : List JVal),
      chainPages fetch n tok? = some pages → n ≤ fuel → pc + n ≤ 100 →
      walkAux fetch fuel (.arr acc) tok? pc f0 =
        .fin (.arr (acc ++ (pages.map pageItems).flatten))
          (pc + pages.length) (f0 + pages.length) false := by
  intro n
  induction n with
  | zero =>
    intro tok? pages fuel pc f0 acc hchain _ _
    by_cases ht : truthyO tok? = true
    · simp [chainPages, ht] at hchain
    · have ht' : truthyO tok? = false := by simpa using ht
      rw [chainPages, if_neg (by simp [ht'])] at hchain
      cases hchain
      cases fuel with
      | zero => simp [walkAux]
      | succ fuel => simp [walkAux, ht']
  | succ n ih =>
    intro tok? pages fuel pc f0 acc hchain hfuel hpc
    by_cases ht : truthyO tok? = true
    · rw [chainPages, if_pos ht] at hchain
      cases fuel with
      | zero => omega
      | succ fuel =>
        rcases hfetch : fetch (tok?.getD .null) with j | _ | _
        · simp only [hfetch] at hchain
          rcases Option.map_eq_some'.mp hchain with ⟨rest, hrest, hpages⟩
          subst hpages
          rw [walkAux, if_pos ht]
          simp only [hfetch]
          rw [if_neg (show ¬(100 < pc + 1) by omega)]
          have harr : ∀ acc' : List JVal,
              walkAux fetch fuel (.arr acc') (jget j "@odata.nextLink")
                (pc + 1) (f0 + 1) =
              .fin (.arr (acc' ++ (rest.map pageItems).flatten))
                (pc + 1 + rest.length) (f0 + 1 + rest.length) false :=
            fun acc' => ih (jget j "@odata.nextLink") rest fuel (pc + 1)
              (f0 + 1) acc' hrest (by omega) (by omega)
          rcases hval : jget j "value" with _ | v
          · simp only [hval]
            rw [harr acc]
            simp [pageItems, hval, List.append_assoc]
            omega
          · rcases v with _ | b | i | s | xs | gs
            · simp only [hval]
              rw [harr acc]
              simp [pageItems, hval, List.append_assoc]
              omega
            · simp only [hval]
              rw [harr acc]
              simp [pageItems, hval, List.append_assoc]
              omega
            · simp only [hval]
              rw [harr acc]
              simp [pageItems, hval, List.append_assoc]
              omega
            · simp only [hval]
              rw [harr acc]
              simp [pageItems, hval, List.append_assoc]
              omega
            · simp only [hval, jconcat]
              rw [harr (acc ++ xs)]
              simp [pageItems, hval, List.append_assoc]
              omega
            · simp only [hval]
              rw [harr acc]
              simp [pageItems, hval, List.append_assoc]
              omega
        · simp [hfetch] at hchain
        · simp [hfetch] at hchain
    · have ht' : truthyO tok? = false := by simpa using ht
      rw [chainPages, if_neg (by simp [ht'])] at hchain
      cases hchain
      cases fuel with
      | zero => simp [walkAux]
      | succ fuel => simp [walkAux, ht']

theorem walkAux_cyclic (fetch : JVal → FetchOutcome)
    (hcyc : ∀ tok, ∃ j xs t, fetch tok = .page j ∧
      jget j "value" = some (.arr xs) ∧
      jget j "@odata.nextLink" = some t ∧ truthy t = true) :
    ∀ (fuel : Nat), 1 ≤ fuel → ∀ (tok : JVal) (pc f0 : Nat) (acc : List JVal),
      truthy tok = true → pc + fuel = 101 →
      walkAux fetch fuel (.arr acc) (some tok) pc f0 =
        .fin (.arr (acc ++ chainItems fetch fuel tok)) (pc + fuel)
          (f0 + fuel) true := by
  intro fuel
  induction fuel with
  | zero => omega
  | succ m ih =>
    intro _ tok pc f0 acc htok hpc
    obtain ⟨j, xs, t, hf, hv, hl, htt⟩ := hcyc tok
    have ht : truthyO (some tok) = true := by simpa [truthyO] using htok
    rw [walkAux, if_pos ht]
    simp only [Option.getD_some, hf, hv, jconcat]
    by_cases hm : m = 0
    · subst hm
      rw [if_pos (by omega)]
      simp [chainItems, hf, hv, hpc]
    · rw [if_neg (by omega)]
      rw [hl]
      rw [ih (by omega) t (pc + 1) (f0 + 1) (acc ++ xs) htt (by omega)]
      simp only [chainItems, hf, hv, hl, Option.getD_some]
      simp [List.append_assoc]
      omega

theorem walkAux_error (fetch : JVal → FetchOutcome) :
    ∀ (n : Nat) (tok? : Option JVal) (pc f0 : Nat) (allItems : JVal),
      chainHitsError fetch n tok? = true → pc + n = 101 →
      ∃ f, walkAux fetch n allItems tok? pc f0 = .err f := by
  intro n
  induction n with
  | zero => intro tok? pc f0 allItems h _; simp [chainHitsError] at h
  | succ n ih =>
    intro tok? pc f0 allItems h hpc
    rw [chainHitsError] at h
    rw [Bool.and_eq_true] at h
    rcases h with ⟨ht, hrest⟩
    rcases hfetch : fetch (tok?.getD .null) with j | _ | _
    · simp only [hfetch] at hrest
      by_cases hn : n = 0
      · subst hn; simp [chainHitsError] at hrest
      · rw [walkAux, if_pos ht]
        simp only [hfetch]
        rw [if_neg (by omega)]
        exact ih (jget j "@odata.nextLink") (pc + 1) (f0 + 1) _ hrest (by omega)
    · simp [hfetch] at hrest
    · refine ⟨f0 + 1, ?_⟩
      rw [walkAux, if_pos ht]
      simp only [hfetch]

theorem finishCombined_value (fs : List (String × JVal)) (items : JVal) :
    jget (finishCombined (.obj fs) items) "value" = some items := by
  simp only [finishCombined]
  rw [jget_jdelete_ne _ _ _ (by decide)]
  split
  · split
    · rw [jget_jset_ne _ _ _ _ (by decide), jset]
      exact jget_jset_self fs "value" items
    · rw [jget_jdelete_ne _ _ _ (by decide), jset]
      exact jget_jset_self fs "value" items
  · rw [jset]
    exact jget_jset_self fs "value" items

theorem finishCombined_nextLink (o items : JVal) :
    jget (finishCombined o items) "@odata.nextLink" = none := by
  simp only [finishCombined]
  exact jget_jdelete_self _ _

theorem finishCombined_count_truthy (fs : List (String × JVal)) (items : JVal)
    (n : Nat) (ht : truthyO (jget (.obj fs) "@odata.count") = true)
    (hn : jlenOpt items = some n) :
    jget (finishCombined (.obj fs) items) "@odata.count" = some (.num n) := by
  simp only [finishCombined]
  have hc1 : jget (jset (.obj fs) "value" items) "@odata.count" =
      jget (.obj fs) "@odata.count" :=
    jget_jset_ne _ _ _ _ (by decide)
  rw [hc1, if_pos ht, hn]
  rw [jget_jdelete_ne _ _ _ (by decide), jset]
  exact jget_jset_self _ _ _

theorem finishCombined_count_falsy (fs : List (String × JVal)) (items : JVal)
    (ht : truthyO (jget (.obj fs) "@odata.count") = false) :
    jget (finishCombined (.obj fs) items) "@odata.count" =
      jget (.obj fs) "@odata.count" := by
  simp only [finishCombined]
  have hc1 : jget (jset (.obj fs) "value" items) "@odata.count" =
      jget (.obj fs) "@odata.count" :=
    jget_jset_ne _ _ _ _ (by decide)
  rw [hc1, if_neg (by simp [ht])]
  rw [jget_jdelete_ne _ _ _ (by decide)]
  exact hc1

/-- Whether a string still contains tag markup: a `<` followed later by a `>`
— exactly the shape the tag-removal regex `<[^>]*>` matches. -/
def containsTag : List Char → Bool
  | [] => false
  | c :: cs => (c = '<' && cs.contains '>') || containsTag cs

/-- `JVal.isObj`: whether a value is an object. -/
def JVal.isObj : JVal → Bool
  | .obj _ => true
  | _ => false

theorem isObj_jset (o : JVal) (k : String) (v : JVal) :
    (jset o k v).isObj = o.isObj := by
  cases o <;> rfl

theorem isObj_jdelete (o : JVal) (k : String) :
    (jdelete o k).isObj = o.isObj := by
  cases o <;> rfl

theorem jget_jset_self' (o : JVal) (ho : o.isObj = true) (k : String)
    (v : JVal) : jget (jset o k v) k = some v := by
  cases o with
  | obj fs => exact jget_jset_self fs k v
  | null => simp [JVal.isObj] at ho
  | bool b => simp [JVal.isObj] at ho
  | num n => simp [JVal.isObj] at ho
  | str s => simp [JVal.isObj] at ho
  | arr xs => simp [JVal.isObj] at ho

/-- The non-trivial branch of `optimizeMessageBody`, written out. -/
theorem optimizeMessageBody_eq (fs : List (String × JVal))
    (cfg : OptimizationConfig) (c : String)
    (hc : jget (.obj fs) "content" = some (.str c)) (hne : c ≠ "") :
    optimizeMessageBody (.obj fs) cfg =
      jset
        (if stripCondition cfg (.obj fs) (mediaReduced cfg c) then
          jset (.obj fs) "contentType" (.str "text")
        else .obj fs)
        "content"
        (.str (truncateContent cfg
          (if stripCondition cfg (.obj fs) (mediaReduced cfg c) then
            stripHtmlTags (mediaReduced cfg c)
          else mediaReduced cfg c))) := by
  simp only [optimizeMessageBody, hc, if_neg hne]

/-! ## 7. Claims -/

/-- Claim C2, counterexample: `normalize` (the tag-stripping pass
`stripHtmlTags`) is not idempotent.  On `"&lt;x&gt;"` one application decodes
the entities to `"<x>"` (tag removal runs before entity decoding, so nothing
is stripped), and a second application then strips `<x>` as a tag, leaving
`""`. -/
theorem normalize_not_idempotent :
    stripHtmlTags (stripHtmlTags "&lt;x&gt;") ≠ stripHtmlTags "&lt;x&gt;" := by
  have h1 : stripHtmlTags "&lt;x&gt;" = "<x>" := rfl
  have h2 : stripHtmlTags "<x>" = "" := rfl
  rw [h1, h2]
  decide

/-- Claim C2 (amended): `normalize` is not idempotent in general, because
entity decoding runs after tag removal and can re-create markup that only a
second pass would strip.  It is idempotent on every string containing none of
`<`, `&`, CR and LF: on those, normalization is whitespace trimming, which is
idempotent. -/
theorem normalize_idem_on_plain (s : String)
    (hlt : '<' ∉ s.data) (hamp : '&' ∉ s.data)
    (hcr : '\r' ∉ s.data) (hnl : '\n' ∉ s.data) :
    stripHtmlTags (stripHtmlTags s) = stripHtmlTags s := by
  have e0 : stripHtmlTagsL s.data = trimL s.data :=
    stripHtmlTagsL_eq_trimL s.data hlt hamp hcr hnl
  have e1 : stripHtmlTagsL (trimL s.data) = trimL (trimL s.data) :=
    stripHtmlTagsL_eq_trimL _ (fun h => hlt (mem_trimL h))
      (fun h => hamp (mem_trimL h)) (fun h => hcr (mem_trimL h))
      (fun h => hnl (mem_trimL h))
  show (⟨stripHtmlTagsL (stripHtmlTagsL s.data)⟩ : String) =
    ⟨stripHtmlTagsL s.data⟩
  rw [e0, e1, trimL_idem]

/-- Claim C2, witness for the amended theorem at the concrete input
`"  hi  "`. -/
theorem normalize_idem_on_plain_witness :
    stripHtmlTags (stripHtmlTags "  hi  ") = stripHtmlTags "  hi  " :=
  normalize_idem_on_plain "  hi  " (by decide) (by decide) (by decide)
    (by decide)

/-- Claim C5: for every `RichTextBody` with string content and valid config
(`maxHtmlContentSize > 0`), the reduced body's content is at most
`maxHtmlContentSize + 14` characters long (`"...[TRUNCATED]"` has 14
characters), and when it is longer than `maxHtmlContentSize` the content is
exactly a `maxHtmlContentSize`-character cut followed by the literal
suffix. -/
theorem reduceBody_length_bound (fs : List (String × JVal))
    (cfg : OptimizationConfig) (c : String)
    (hc : jget (.obj fs) "content" = some (.str c))
    (_hmax : 0 < cfg.maxHtmlContentSize) :
    ∃ c' : String,
      jget (optimizeMessageBody (.obj fs) cfg) "content" = some (.str c') ∧
      c'.data.length ≤ cfg.maxHtmlContentSize + 14 ∧
      (cfg.maxHtmlContentSize < c'.data.length →
        ∃ pre : List Char, c'.data = pre ++ "...[TRUNCATED]".data ∧
          pre.length = cfg.maxHtmlContentSize) := by
  by_cases hempty : c = ""
  · subst hempty
    have hbody : optimizeMessageBody (.obj fs) cfg = .obj fs := by
      simp [optimizeMessageBody, hc]
    rw [hbody]
    exact ⟨"", hc, by simp, fun h => absurd h (by simp)⟩
  · rw [optimizeMessageBody_eq fs cfg c hc hempty]
    set t :=
      (if stripCondition cfg (.obj fs) (mediaReduced cfg c) then
        stripHtmlTags (mediaReduced cfg c)
      else mediaReduced cfg c) with ht
    have hobj :
        (if stripCondition cfg (.obj fs) (mediaReduced cfg c) then
          jset (.obj fs) "contentType" (.str "text")
        else (.obj fs) : JVal).isObj = true := by
      split
      · rw [isObj_jset]; rfl
      · rfl
    refine ⟨truncateContent cfg t, jget_jset_self' _ hobj _ _, ?_, ?_⟩
    · by_cases hcase : cfg.maxHtmlContentSize < t.data.length
      · unfold truncateContent
        rw [if_pos hcase]
        show (t.data.take cfg.maxHtmlContentSize ++
          "...[TRUNCATED]".data).length ≤ cfg.maxHtmlContentSize + 14
        rw [List.length_append, List.length_take]
        have h14 : ("...[TRUNCATED]".data).length = 14 := by decide
        omega
      · unfold truncateContent
        rw [if_neg hcase]
        omega
    · intro hlong
      by_cases hcase : cfg.maxHtmlContentSize < t.data.length
      · unfold truncateContent
        rw [if_pos hcase]
        refine ⟨t.data.take cfg.maxHtmlContentSize, rfl, ?_⟩
        rw [List.length_take]
        omega
      · unfold truncateContent at hlong
        rw [if_neg hcase] at hlong
        omega

/-- Claim C5, witness: the length bound at a concrete body and the default
configuration. -/
theorem reduceBody_length_bound_witness :
    0 < DEFAULT_LLM_OPTIMIZATION.maxHtmlContentSize ∧
    ∃ c' : String,
      jget (optimizeMessageBody (.obj [("content", .str "hello")])
        DEFAULT_LLM_OPTIMIZATION) "content" = some (.str c') ∧
      c'.data.length ≤ DEFAULT_LLM_OPTIMIZATION.maxHtmlContentSize + 14 ∧
      (DEFAULT_LLM_OPTIMIZATION.maxHtmlContentSize < c'.data.length →
        ∃ pre : List Char, c'.data = pre ++ "...[TRUNCATED]".data ∧
          pre.length = DEFAULT_LLM_OPTIMIZATION.maxHtmlContentSize) :=
  ⟨by decide,
    reduceBody_length_bound [("content", .str "hello")]
      DEFAULT_LLM_OPTIMIZATION "hello" rfl (by decide)⟩

/-- Claim C6, counterexample: stripping does not guarantee markup-free
output.  With `convertHtmlToText` set (the default configuration) and the
body `{contentType: "html", content: "&lt;i&gt;"}`, tag stripping is applied,
but entity decoding (which runs after tag removal) produces `"<i>"`, which
still contains tag markup, contradicting the claimed invariant. -/
theorem strip_leaves_tag_markup :
    DEFAULT_LLM_OPTIMIZATION.stripHtmlToText = true ∧
    jget (optimizeMessageBody
      (.obj [("contentType", .str "html"), ("content", .str "&lt;i&gt;")])
      DEFAULT_LLM_OPTIMIZATION) "content" = some (.str "<i>") ∧
    containsTag "<i>".data = true :=
  ⟨rfl, rfl, rfl⟩

/-- Claim C6 (amended): with `convertHtmlToText` set — or the media-reduced
content exceeding `maxBodySize` — *and* the body's `contentType` equal to
`"html"` or the media-reduced content containing `<`: for non-empty string
content, tag stripping is applied to the media-reduced content, the result's
`contentType` is `"text"`, and its content is the (truncated) output of
`stripHtmlTags` — which may still contain tag-shaped text produced by entity
decoding.  A body whose content is the empty string is falsy and skips the
whole block: it is returned unchanged, its `contentType` not set to
`"text"`. -/
theorem reduceBody_strip_behaviour (fs : List (String × JVal))
    (cfg : OptimizationConfig) (c : String)
    (hc : jget (.obj fs) "content" = some (.str c))
    (htrigger : cfg.stripHtmlToText = true ∨
      cfg.maxHtmlContentSize < (mediaReduced cfg c).data.length)
    (hmarkup : contentTypeIsHtml (.obj fs) = true ∨
      containsLt (mediaReduced cfg c) = true) :
    (c ≠ "" →
      jget (optimizeMessageBody (.obj fs) cfg) "contentType" =
        some (.str "text") ∧
      jget (optimizeMessageBody (.obj fs) cfg) "content" =
        some (.str (truncateContent cfg
          (stripHtmlTags (mediaReduced cfg c))))) ∧
    (c = "" → optimizeMessageBody (.obj fs) cfg = .obj fs) := by
  constructor
  · intro hne
    have hs : stripCondition cfg (.obj fs) (mediaReduced cfg c) = true := by
      unfold stripCondition
      rw [Bool.and_eq_true, Bool.or_eq_true, Bool.or_eq_true]
      constructor
      · rcases htrigger with h | h
        · exact Or.inl h
        · exact Or.inr (decide_eq_true h)
      · exact hmarkup
    have heq := optimizeMessageBody_eq fs cfg c hc hne
    rw [hs] at heq
    simp only [if_pos] at heq
    rw [heq]
    constructor
    · rw [jget_jset_ne _ _ _ _ (by decide), jset]
      exact jget_jset_self _ _ _
    · rw [jset]
      exact jget_jset_self _ _ _
  · intro hempty
    subst hempty
    simp [optimizeMessageBody, hc]

/-- Claim C6, witness for the amended theorem: an html body under the default
configuration is stripped to text. -/
theorem reduceBody_strip_behaviour_witness :
    (("<p>hi</p>" : String) ≠ "" →
      jget (optimizeMessageBody
        (.obj [("contentType", .str "html"), ("content", .str "<p>hi</p>")])
        DEFAULT_LLM_OPTIMIZATION) "contentType" = some (.str "text") ∧
      jget (optimizeMessageBody
        (.obj [("contentType", .str "html"), ("content", .str "<p>hi</p>")])
        DEFAULT_LLM_OPTIMIZATION) "content" =
        some (.str (truncateContent DEFAULT_LLM_OPTIMIZATION
          (stripHtmlTags
            (mediaReduced DEFAULT_LLM_OPTIMIZATION "<p>hi</p>"))))) ∧
    (("<p>hi</p>" : String) = "" →
      optimizeMessageBody
        (.obj [("contentType", .str "html"), ("content", .str "<p>hi</p>")])
        DEFAULT_LLM_OPTIMIZATION =
      .obj [("contentType", .str "html"), ("content", .str "<p>hi</p>")]) :=
  reduceBody_strip_behaviour
    [("contentType", .str "html"), ("content", .str "<p>hi</p>")]
    DEFAULT_LLM_OPTIMIZATION "<p>hi</p>" rfl (Or.inl rfl) (Or.inl rfl)

/-- Claim C7, counterexample: the collection reducer only updates a *truthy*
count.  On a page with one item and `@odata.count` equal to `0`, the returned
count stays `0` while one item is returned, so the count does not equal the
length of the returned items list. -/
theorem reduceCollection_count_not_updated :
    jget (optimizeMailCollection
      (.obj [("value", .arr [.obj []]), ("@odata.count", .num 0)])
      DEFAULT_LLM_OPTIMIZATION) "@odata.count" = some (.num 0) ∧
    jget (optimizeMailCollection
      (.obj [("value", .arr [.obj []]), ("@odata.count", .num 0)])
      DEFAULT_LLM_OPTIMIZATION) "value" = some (.arr [.obj []]) ∧
    JVal.num 0 ≠ JVal.num 1 :=
  ⟨rfl, rfl, by simp⟩

/-- Claim C7 (amended): on a page with an items list and a `count` field, the
reduced count equals the length of the returned items list when the original
count is truthy (a nonzero number); a falsy count (such as `0`) is left
unchanged. -/
theorem reduceCollection_count (fs : List (String × JVal))
    (cfg : OptimizationConfig) (items : List JVal) (c : JVal)
    (hval : jget (.obj fs) "value" = some (.arr items))
    (hcount : jget (.obj fs) "@odata.count" = some c) :
    ∃ out : List JVal,
      jget (optimizeMailCollection (.obj fs) cfg) "value" =
        some (.arr out) ∧
      (truthy c = true →
        jget (optimizeMailCollection (.obj fs) cfg) "@odata.count" =
          some (.num out.length)) ∧
      (truthy c = false →
        jget (optimizeMailCollection (.obj fs) cfg) "@odata.count" =
          some c) := by
  simp only [optimizeMailCollection, hval]
  set kept :=
    (if cfg.maxItemsInCollection < items.length then
      items.take cfg.maxItemsInCollection
    else items) with hkept
  have hc1 : jget (jset (.obj fs) "value"
      (.arr (kept.map (fun m => optimizeMailMessage m cfg)))) "@odata.count" =
      some c := by
    rw [jget_jset_ne _ _ _ _ (by decide)]
    exact hcount
  refine ⟨kept.map (fun m => optimizeMailMessage m cfg), ?_, ?_, ?_⟩
  · rw [hc1]
    by_cases ht : truthy c = true
    · rw [if_pos (by simp [truthyO, ht])]
      rw [jget_jset_ne _ _ _ _ (by decide), jset]
      exact jget_jset_self _ _ _
    · rw [if_neg (by simp [truthyO]; simpa using ht), jset]
      exact jget_jset_self _ _ _
  · intro ht
    rw [hc1, if_pos (by simp [truthyO, ht]), jset, jset]
    exact jget_jset_self _ _ _
  · intro ht
    rw [hc1, if_neg (by simp [truthyO, ht])]
    rw [jset] at hc1
    exact hc1

/-- Claim C7, witness for the amended theorem: a truthy count (`7`) is
rewritten to the retained item count. -/
theorem reduceCollection_count_witness :
    ∃ out : List JVal,
      jget (optimizeMailCollection
        (.obj [("value", .arr [.obj [], .obj []]), ("@odata.count", .num 7)])
        DEFAULT_LLM_OPTIMIZATION) "value" = some (.arr out) ∧
      (truthy (.num 7) = true →
        jget (optimizeMailCollection
          (.obj [("value", .arr [.obj [], .obj []]), ("@odata.count", .num 7)])
          DEFAULT_LLM_OPTIMIZATION) "@odata.count" =
          some (.num out.length)) ∧
      (truthy (.num 7) = false →
        jget (optimizeMailCollection
          (.obj [("value", .arr [.obj [], .obj []]), ("@odata.count", .num 7)])
          DEFAULT_LLM_OPTIMIZATION) "@odata.count" = some (.num 7)) :=
  reduceCollection_count
    [("value", .arr [.obj [], .obj []]), ("@odata.count", .num 7)]
    DEFAULT_LLM_OPTIMIZATION [.obj [], .obj []] (.num 7) rfl rfl

/-- Claim C8: on a page with an items list, the collection reducer returns
exactly the entity-reduced images of the first
`min(items.length, maxCollectionItems)` items, in original order, and hence
at most `maxCollectionItems` items. -/
theorem reduceCollection_keeps_first_items (fs : List (String × JVal))
    (cfg : OptimizationConfig) (items : List JVal)
    (hval : jget (.obj fs) "value" = some (.arr items)) :
    jget (optimizeMailCollection (.obj fs) cfg) "value" =
      some (.arr ((items.take cfg.maxItemsInCollection).map
        (fun m => optimizeMailMessage m cfg))) ∧
    ((items.take cfg.maxItemsInCollection).map
      (fun m => optimizeMailMessage m cfg)).length ≤
      cfg.maxItemsInCollection := by
  have hkept :
      (if cfg.maxItemsInCollection < items.length then
        items.take cfg.maxItemsInCollection
      else items) = items.take cfg.maxItemsInCollection := by
    split
    · rfl
    · rename_i hle
      rw [List.take_of_length_le (by omega)]
  constructor
  · simp only [optimizeMailCollection, hval, hkept]
    split
    · rw [jget_jset_ne _ _ _ _ (by decide), jset]
      exact jget_jset_self _ _ _
    · rw [jset]
      exact jget_jset_self _ _ _
  · rw [List.length_map, List.length_take]
    omega

/-- Claim C8, witness: three bare entities, a limit of 50. -/
theorem reduceCollection_keeps_first_items_witness :
    jget (optimizeMailCollection
      (.obj [("value", .arr [.obj [], .obj [], .obj []])])
      DEFAULT_LLM_OPTIMIZATION) "value" =
      some (.arr (([JVal.obj [], .obj [], .obj []].take
        DEFAULT_LLM_OPTIMIZATION.maxItemsInCollection).map
        (fun m => optimizeMailMessage m DEFAULT_LLM_OPTIMIZATION))) ∧
    (([JVal.obj [], .obj [], .obj []].take
      DEFAULT_LLM_OPTIMIZATION.maxItemsInCollection).map
      (fun m => optimizeMailMessage m DEFAULT_LLM_OPTIMIZATION)).length ≤
      DEFAULT_LLM_OPTIMIZATION.maxItemsInCollection :=
  reduceCollection_keeps_first_items [("value", .arr [.obj [], .obj [], .obj []])]
    DEFAULT_LLM_OPTIMIZATION [.obj [], .obj [], .obj []] rfl

theorem jget_bodyStep_ne (m : JVal) (cfg : OptimizationConfig) (k : String)
    (h : k ≠ "body") : jget (bodyStep m cfg) k = jget m k := by
  unfold bodyStep
  split
  · split
    · exact jget_jset_ne _ _ _ _ h
    · rfl
  · rfl

theorem isObj_bodyStep (m : JVal) (cfg : OptimizationConfig) :
    (bodyStep m cfg).isObj = m.isObj := by
  unfold bodyStep
  split
  · split
    · rw [isObj_jset]
    · rfl
  · rfl

theorem jget_mapRecipientField_ne (m : JVal) (f k : String) (h : k ≠ f) :
    jget (mapRecipientField m f) k = jget m k := by
  unfold mapRecipientField
  split
  · exact jget_jset_ne _ _ _ _ h
  · rfl

theorem jget_flattenSenderField_ne (m : JVal) (f k : String) (h : k ≠ f) :
    jget (flattenSenderField m f) k = jget m k := by
  unfold flattenSenderField
  split
  · split
    · split
      · exact jget_jset_ne _ _ _ _ h
      · rfl
    · rfl
  · rfl

theorem jget_foldl_jdelete (ks : List String) :
    ∀ (m : JVal) (k : String), (∀ f ∈ ks, k ≠ f) →
      jget (ks.foldl jdelete m) k = jget m k := by
  induction ks with
  | nil => intro m k _; rfl
  | cons a as ih =>
    intro m k h
    rw [List.foldl_cons,
      ih (jdelete m a) k (fun f hf => h f (List.mem_cons_of_mem a hf))]
    exact jget_jdelete_ne _ _ _ (h a (List.mem_cons_self a as))

theorem isObj_foldl_jdelete (ks : List String) :
    ∀ m : JVal, ((ks.foldl jdelete m)).isObj = m.isObj := by
  induction ks with
  | nil => intro m; rfl
  | cons a as ih => intro m; rw [List.foldl_cons, ih, isObj_jdelete]

theorem isObj_mapRecipientField (m : JVal) (f : String) :
    (mapRecipientField m f).isObj = m.isObj := by
  unfold mapRecipientField
  split
  · rw [isObj_jset]
  · rfl

theorem jget_mapRecipientField_self (m : JVal) (ho : m.isObj = true)
    (f : String) (rs : List JVal) (h : jget m f = some (.arr rs)) :
    jget (mapRecipientField m f) f = some (.arr (rs.map flattenRecipient)) := by
  unfold mapRecipientField
  rw [h]
  exact jget_jset_self' _ ho _ _

/-- The recipient fold of `optimizeMailMessage` rewrites whichever of the
three recipient fields is present as an array. -/
theorem recipientFold_rewrites (m2 : JVal) (h2o : m2.isObj = true)
    (field : String)
    (hfield : field ∈ ["toRecipients", "ccRecipients", "bccRecipients"])
    (rs : List JVal) (hrec : jget m2 field = some (.arr rs)) :
    jget (["toRecipients", "ccRecipients", "bccRecipients"].foldl
      mapRecipientField m2) field =
      some (.arr (rs.map flattenRecipient)) := by
  have hcases : field = "toRecipients" ∨ field = "ccRecipients" ∨
      field = "bccRecipients" := by simpa using hfield
  simp only [List.foldl_cons, List.foldl_nil]
  rcases hcases with h | h | h
  · subst h
    rw [jget_mapRecipientField_ne _ _ _ (by decide),
      jget_mapRecipientField_ne _ _ _ (by decide)]
    exact jget_mapRecipientField_self m2 h2o _ rs hrec
  · subst h
    have hpre : jget (mapRecipientField m2 "toRecipients") "ccRecipients" =
        some (.arr rs) := by
      rw [jget_mapRecipientField_ne _ _ _ (by decide)]; exact hrec
    have hpreo : (mapRecipientField m2 "toRecipients").isObj = true := by
      rw [isObj_mapRecipientField]; exact h2o
    rw [jget_mapRecipientField_ne _ _ _ (by decide)]
    exact jget_mapRecipientField_self _ hpreo _ rs hpre
  · subst h
    have hpre1 : jget (mapRecipientField m2 "toRecipients") "bccRecipients" =
        some (.arr rs) := by
      rw [jget_mapRecipientField_ne _ _ _ (by decide)]; exact hrec
    have hpre2 : jget (mapRecipientField
        (mapRecipientField m2 "toRecipients") "ccRecipients")
        "bccRecipients" = some (.arr rs) := by
      rw [jget_mapRecipientField_ne _ _ _ (by decide)]; exact hpre1
    have ho2 : (mapRecipientField
        (mapRecipientField m2 "toRecipients") "ccRecipients").isObj =
        true := by
      rw [isObj_mapRecipientField, isObj_mapRecipientField]; exact h2o
    exact jget_mapRecipientField_self _ ho2 _ rs hpre2

/-- Claim C10: whenever one of the recipient fields (`toRecipients`,
`ccRecipients`, `bccRecipients`) is present as a list, the entity reducer
rewrites every entry of that list to `{name, address}` taken from the
entry's `emailAddress` wrapper; an entry without the wrapper — for instance
an already-flattened `{name, address}` pair — becomes an object with neither
field (both come out `undefined`), losing all its original fields, so the
flattening is not idempotent. -/
theorem recipient_flattening (fs : List (String × JVal))
    (cfg : OptimizationConfig) (field : String)
    (hfield : field ∈ ["toRecipients", "ccRecipients", "bccRecipients"])
    (rs : List JVal)
    (hrec : jget (.obj fs) field = some (.arr rs)) :
    jget (optimizeMailMessage (.obj fs) cfg) field =
      some (.arr (rs.map flattenRecipient)) ∧
    (∀ r, jget r "emailAddress" = none → flattenRecipient r = .obj []) ∧
    flattenRecipient (.obj [("name", .str "a"), ("address", .str "b")]) =
      .obj [] ∧
    flattenRecipient (flattenRecipient (.obj [("emailAddress",
        .obj [("name", .str "a"), ("address", .str "b")])])) ≠
      flattenRecipient (.obj [("emailAddress",
        .obj [("name", .str "a"), ("address", .str "b")])]) := by
  have hcases : field = "toRecipients" ∨ field = "ccRecipients" ∨
      field = "bccRecipients" := by simpa using hfield
  refine ⟨?_, ?_, rfl, ?_⟩
  · have hnb : field ≠ "body" := by
      rcases hcases with h | h | h <;> subst h <;> decide
    have hnd : ∀ f ∈ deletedFields, field ≠ f := by
      rcases hcases with h | h | h <;> subst h <;> decide
    have hns : field ≠ "sender" := by
      rcases hcases with h | h | h <;> subst h <;> decide
    have hnf : field ≠ "from" := by
      rcases hcases with h | h | h <;> subst h <;> decide
    show jget
      (["sender", "from"].foldl flattenSenderField
        (["toRecipients", "ccRecipients", "bccRecipients"].foldl
          mapRecipientField
          (deletedFields.foldl jdelete (bodyStep (.obj fs) cfg))))
      field = some (.arr (rs.map flattenRecipient))
    have h1 : jget (bodyStep (.obj fs) cfg) field = some (.arr rs) := by
      rw [jget_bodyStep_ne _ _ _ hnb]; exact hrec
    have h1o : (bodyStep (.obj fs) cfg).isObj = true := by
      rw [isObj_bodyStep]; rfl
    have h2 : jget (deletedFields.foldl jdelete (bodyStep (.obj fs) cfg))
        field = some (.arr rs) := by
      rw [jget_foldl_jdelete _ _ _ hnd]; exact h1
    have h2o :
        (deletedFields.foldl jdelete (bodyStep (.obj fs) cfg)).isObj =
        true := by
      rw [isObj_foldl_jdelete]; exact h1o
    have key := recipientFold_rewrites
      (deletedFields.foldl jdelete (bodyStep (.obj fs) cfg)) h2o field
      hfield rs h2
    simp only [List.foldl_cons, List.foldl_nil] at key ⊢
    rw [jget_flattenSenderField_ne _ _ _ hnf,
      jget_flattenSenderField_ne _ _ _ hns]
    exact key
  · intro r h
    unfold flattenRecipient
    rw [h]
    rfl
  · have e1 : flattenRecipient (.obj [("emailAddress",
        .obj [("name", .str "a"), ("address", .str "b")])]) =
        .obj [("name", .str "a"), ("address", .str "b")] := rfl
    have e2 : flattenRecipient
        (.obj [("name", .str "a"), ("address", .str "b")]) = .obj [] := rfl
    rw [e1, e2]
    simp

/-- Claim C10, witness: a `ccRecipients` list with a wrapped recipient and
an already-flattened one. -/
theorem recipient_flattening_witness :
    jget (optimizeMailMessage
      (.obj [("ccRecipients", .arr
        [.obj [("emailAddress",
          .obj [("name", .str "John"), ("address", .str "j@x")])],
         .obj [("name", .str "n"), ("address", .str "a")]])])
      DEFAULT_LLM_OPTIMIZATION) "ccRecipients" =
      some (.arr ([JVal.obj [("emailAddress",
          .obj [("name", .str "John"), ("address", .str "j@x")])],
         .obj [("name", .str "n"), ("address", .str "a")]].map
        flattenRecipient)) ∧
    (∀ r, jget r "emailAddress" = none → flattenRecipient r = .obj []) ∧
    flattenRecipient (.obj [("name", .str "a"), ("address", .str "b")]) =
      .obj [] ∧
    flattenRecipient (flattenRecipient (.obj [("emailAddress",
        .obj [("name", .str "a"), ("address", .str "b")])])) ≠
      flattenRecipient (.obj [("emailAddress",
        .obj [("name", .str "a"), ("address", .str "b")])]) :=
  recipient_flattening
    [("ccRecipients", .arr
      [.obj [("emailAddress",
        .obj [("name", .str "John"), ("address", .str "j@x")])],
       .obj [("name", .str "n"), ("address", .str "a")]])]
    DEFAULT_LLM_OPTIMIZATION "ccRecipients" (by decide)
    [.obj [("emailAddress",
      .obj [("name", .str "John"), ("address", .str "j@x")])],
     .obj [("name", .str "n"), ("address", .str "a")]] rfl

/-- First page used by the C1 material: one item and a continuation link. -/
def c1Page : JVal :=
  .obj [("value", .arr [.num 1]), ("@odata.nextLink", .str "t1")]

/-- Fetch behaviour for C1: the first continuation page succeeds with one
item and a further link; fetching that link raises an error. -/
def c1Fetch : JVal → FetchOutcome := fun tok =>
  match tok with
  | .str "t1" =>
    .page (.obj [("value", .arr [.num 2]), ("@odata.nextLink", .str "t2")])
  | _ => .error

/-- Claim C1, counterexample: a fetch error after one continuation page has
already been fetched and merged does *not* yield the accumulated items.  The
error propagates to the `catch` around the whole merge, so the response text
is still the original first page: the returned items are `[1]`, not the
accumulated `[1, 2]`, and the continuation token is still set. -/
theorem error_discards_merged_pages :
    (aggregateAllPages c1Fetch c1Page).errored = true ∧
    (aggregateAllPages c1Fetch c1Page).result = c1Page ∧
    jget (aggregateAllPages c1Fetch c1Page).result "value" =
      some (.arr [.num 1]) ∧
    jget (aggregateAllPages c1Fetch c1Page).result "@odata.nextLink" =
      some (.str "t1") ∧
    [JVal.num 1] ≠ [JVal.num 1, JVal.num 2] :=
  ⟨rfl, rfl, rfl, rfl, by simp⟩

/-- Claim C1 (amended): whenever the walk runs into a fetch / parse error
(after any number of successfully merged pages), the whole aggregation is
abandoned: the tool returns the original first page unchanged — its
continuation token still set — and the items of the already-fetched pages are
discarded. -/
theorem aggregate_error_returns_first_page (fetch : JVal → FetchOutcome)
    (firstPage : JVal)
    (h : chainHitsError fetch 100 (jget firstPage "@odata.nextLink") = true) :
    (aggregateAllPages fetch firstPage).result = firstPage ∧
    (aggregateAllPages fetch firstPage).errored = true := by
  obtain ⟨f, hw⟩ := walkAux_error fetch 100
    (jget firstPage "@odata.nextLink") 1 0
    (match jget firstPage "value" with
     | some v => if truthy v then v else .arr []
     | none => .arr []) h (by omega)
  simp only [aggregateAllPages, hw]
  exact ⟨trivial, trivial⟩

/-- Claim C1, witness for the amended theorem at the concrete erroring
chain. -/
theorem aggregate_error_returns_first_page_witness :
    (aggregateAllPages c1Fetch c1Page).result = c1Page ∧
    (aggregateAllPages c1Fetch c1Page).errored = true :=
  aggregate_error_returns_first_page c1Fetch c1Page rfl

/-- The page returned forever in the C3 cyclic chain: one item and a
continuation link. -/
def c3Page : JVal :=
  .obj [("value", .arr [.num 1]), ("@odata.nextLink", .str "t")]

/-- Fetch behaviour for C3: every token yields the same page again — an
unbounded chain. -/
def c3Fetch : JVal → FetchOutcome := fun _ => .page c3Page

/-- Claim C3, counterexample: on an unbounded chain the walker performs
exactly 100 fetches but accumulates the items of **101** pages (the first
page plus all 100 fetched pages): with one item per page the result has 101
items, not the 100 the claim states. -/
theorem cyclic_chain_accumulates_101_pages :
    (aggregateAllPages c3Fetch c3Page).fetches = 100 ∧
    jget (aggregateAllPages c3Fetch c3Page).result "value" =
      some (.arr (List.replicate 101 (.num 1))) ∧
    (List.replicate 101 (JVal.num 1)).length ≠ 100 :=
  ⟨rfl, rfl, by simp⟩

/-- Claim C3 (amended): on a chain in which every fetched page carries a
truthy continuation token, the walker stops in the aborted state after
exactly 100 `fetchNext` calls, with `pageCount = 101`, and returns the items
of 101 pages — the first page plus all 100 fetched pages — with the
continuation token cleared. -/
theorem aggregate_cyclic_chain (fetch : JVal → FetchOutcome)
    (fs : List (String × JVal)) (xs0 : List JVal) (t0 : JVal)
    (hval : jget (.obj fs) "value" = some (.arr xs0))
    (hlink : jget (.obj fs) "@odata.nextLink" = some t0)
    (ht0 : truthy t0 = true)
    (hcyc : ∀ tok, ∃ j xs t, fetch tok = .page j ∧
      jget j "value" = some (.arr xs) ∧
      jget j "@odata.nextLink" = some t ∧ truthy t = true) :
    (aggregateAllPages fetch (.obj fs)).fetches = 100 ∧
    (aggregateAllPages fetch (.obj fs)).pageCount = 101 ∧
    (aggregateAllPages fetch (.obj fs)).aborted = true ∧
    (aggregateAllPages fetch (.obj fs)).errored = false ∧
    jget (aggregateAllPages fetch (.obj fs)).result "value" =
      some (.arr (xs0 ++ chainItems fetch 100 t0)) ∧
    jget (aggregateAllPages fetch (.obj fs)).result "@odata.nextLink" =
      none := by
  have hwalk := walkAux_cyclic fetch hcyc 100 (by omega) t0 1 0 xs0 ht0
    (by omega)
  have key : aggregateAllPages fetch (.obj fs) =
      { result :=
          finishCombined (.obj fs) (.arr (xs0 ++ chainItems fetch 100 t0)),
        pageCount := 1 + 100, fetches := 0 + 100, errored := false,
        aborted := true } := by
    simp only [aggregateAllPages, hval, hlink, truthy, if_true, hwalk]
  rw [key]
  exact ⟨rfl, rfl, rfl, rfl, finishCombined_value _ _,
    finishCombined_nextLink _ _⟩

/-- Claim C3, witness for the amended theorem at the concrete cyclic
chain. -/
theorem aggregate_cyclic_chain_witness :
    (aggregateAllPages c3Fetch c3Page).fetches = 100 ∧
    (aggregateAllPages c3Fetch c3Page).pageCount = 101 ∧
    (aggregateAllPages c3Fetch c3Page).aborted = true ∧
    (aggregateAllPages c3Fetch c3Page).errored = false ∧
    jget (aggregateAllPages c3Fetch c3Page).result "value" =
      some (.arr ([JVal.num 1] ++ chainItems c3Fetch 100 (.str "t"))) ∧
    jget (aggregateAllPages c3Fetch c3Page).result "@odata.nextLink" =
      none :=
  aggregate_cyclic_chain c3Fetch
    [("value", .arr [.num 1]), ("@odata.nextLink", .str "t")]
    [.num 1] (.str "t") rfl rfl rfl
    (fun _ => ⟨c3Page, [.num 1], .str "t", rfl, rfl, rfl, rfl⟩)

/-- First page used by the C4 material: one item, a count of `0`, a
continuation link. -/
def c4Page : JVal :=
  .obj [("value", .arr [.num 1]), ("@odata.count", .num 0),
        ("@odata.nextLink", .str "t1")]

/-- Fetch behaviour for C4: one final continuation page with one item and no
further link. -/
def c4Fetch : JVal → FetchOutcome := fun tok =>
  match tok with
  | .str "t1" => .page (.obj [("value", .arr [.num 2])])
  | _ => .error

/-- Claim C4, counterexample: the count update is guarded by JavaScript
truthiness, so a `count` field that exists with value `0` is *not* set to the
merged item count: the merged result has two items but still reports
`@odata.count = 0`. -/
theorem finite_chain_count_zero_not_updated :
    jget (aggregateAllPages c4Fetch c4Page).result "value" =
      some (.arr [.num 1, .num 2]) ∧
    jget (aggregateAllPages c4Fetch c4Page).result "@odata.count" =
      some (.num 0) ∧
    JVal.num 0 ≠ JVal.num 2 :=
  ⟨rfl, rfl, by simp⟩

/-- Claim C4 (amended): for every finite chain (tokens exhaust within 100
pages, every fetched page carrying an items array), the aggregation returns
the concatenation of all pages' items in original order with no continuation
token left on the result; a `count` field on the first page is set to the
merged item count when its original value is truthy, and left unchanged when
it is falsy (such as `0`). -/
theorem aggregate_finite_chain (fetch : JVal → FetchOutcome)
    (fs : List (String × JVal)) (xs0 : List JVal)
    (pagess : List (List JVal))
    (hval : jget (.obj fs) "value" = some (.arr xs0))
    (hchain : chainFin fetch 99 (jget (.obj fs) "@odata.nextLink") =
      some pagess) :
    (aggregateAllPages fetch (.obj fs)).errored = false ∧
    (aggregateAllPages fetch (.obj fs)).aborted = false ∧
    jget (aggregateAllPages fetch (.obj fs)).result "value" =
      some (.arr (xs0 ++ pagess.flatten)) ∧
    jget (aggregateAllPages fetch (.obj fs)).result "@odata.nextLink" =
      none ∧
    (∀ c, jget (.obj fs) "@odata.count" = some c →
      (truthy c = true →
        jget (aggregateAllPages fetch (.obj fs)).result "@odata.count" =
          some (.num ((xs0 ++ pagess.flatten).length))) ∧
      (truthy c = false →
        jget (aggregateAllPages fetch (.obj fs)).result "@odata.count" =
          some c)) := by
  have hwalk := walkAux_chainFin fetch 99
    (jget (.obj fs) "@odata.nextLink") pagess 100 1 0 xs0 hchain (by omega)
    (by omega)
  have key : aggregateAllPages fetch (.obj fs) =
      { result := finishCombined (.obj fs) (.arr (xs0 ++ pagess.flatten)),
        pageCount := 1 + pagess.length, fetches := 0 + pagess.length,
        errored := false, aborted := false } := by
    simp only [aggregateAllPages, hval, truthy, if_true, hwalk]
  rw [key]
  refine ⟨rfl, rfl, finishCombined_value _ _, finishCombined_nextLink _ _,
    ?_⟩
  intro c hc
  constructor
  · intro ht
    exact finishCombined_count_truthy fs _ _ (by simp [hc, truthyO, ht]) rfl
  · intro ht
    rw [finishCombined_count_falsy fs _ (by simp [hc, truthyO, ht])]
    exact hc

/-- Claim C4, witness for the amended theorem: a two-page chain whose first
page carries a truthy count. -/
theorem aggregate_finite_chain_witness :
    (aggregateAllPages c4Fetch
      (.obj [("value", .arr [.num 1]), ("@odata.count", .num 5),
        ("@odata.nextLink", .str "t1")])).errored = false ∧
    (aggregateAllPages c4Fetch
      (.obj [("value", .arr [.num 1]), ("@odata.count", .num 5),
        ("@odata.nextLink", .str "t1")])).aborted = false ∧
    jget (aggregateAllPages c4Fetch
      (.obj [("value", .arr [.num 1]), ("@odata.count", .num 5),
        ("@odata.nextLink", .str "t1")])).result "value" =
      some (.arr ([JVal.num 1] ++ [[JVal.num 2]].flatten)) ∧
    jget (aggregateAllPages c4Fetch
      (.obj [("value", .arr [.num 1]), ("@odata.count", .num 5),
        ("@odata.nextLink", .str "t1")])).result "@odata.nextLink" = none ∧
    (∀ c, jget (.obj [("value", .arr [.num 1]), ("@odata.count", .num 5),
        ("@odata.nextLink", .str "t1")] : JVal) "@odata.count" = some c →
      (truthy c = true →
        jget (aggregateAllPages c4Fetch
          (.obj [("value", .arr [.num 1]), ("@odata.count", .num 5),
            ("@odata.nextLink", .str "t1")])).result "@odata.count" =
          some (.num (([JVal.num 1] ++ [[JVal.num 2]].flatten).length))) ∧
      (truthy c = false →
        jget (aggregateAllPages c4Fetch
          (.obj [("value", .arr [.num 1]), ("@odata.count", .num 5),
            ("@odata.nextLink", .str "t1")])).result "@odata.count" =
          some c)) :=
  aggregate_finite_chain c4Fetch
    [("value", .arr [.num 1]), ("@odata.count", .num 5),
     ("@odata.nextLink", .str "t1")]
    [.num 1] [[.num 2]] rfl rfl

/-- First page used by the C9 material. -/
def c9Page : JVal :=
  .obj [("value", .arr [.num 1]), ("@odata.nextLink", .str "t1")]

/-- Fetch behaviour for C9: the first continuation page parses but has no
items array, yet carries a further link; that link leads to a page with one
item and no link. -/
def c9Fetch : JVal → FetchOutcome := fun tok =>
  match tok with
  | .str "t1" => .page (.obj [("@odata.nextLink", .str "t2")])
  | .str "t2" => .page (.obj [("value", .arr [.num 2])])
  | _ => .error

/-- Claim C9, counterexample: a continuation page with no items array does
*not* end the walk.  The walker appends nothing but adopts that page's
continuation token and keeps fetching: here it performs 2 fetches and picks
up the item of the page behind the token, where the claim says it stops at
the item-less page after 1 fetch with only the first page's items. -/
theorem pageless_page_does_not_stop_walk :
    (aggregateAllPages c9Fetch c9Page).fetches = 2 ∧
    jget (aggregateAllPages c9Fetch c9Page).result "value" =
      some (.arr [.num 1, .num 2]) ∧
    (2 : Nat) ≠ 1 ∧
    [JVal.num 1, JVal.num 2] ≠ [JVal.num 1] :=
  ⟨rfl, rfl, by simp, by simp⟩

/-- Claim C9 (amended): within the 100-fetch safety bound, a successfully
parsed continuation page with no items array contributes nothing to the
accumulation but does not end the walk: the walker adopts its continuation
token and keeps fetching while tokens stay truthy, so every page of the
chain — before and after any item-less pages — is fetched and its items (if
any) merged, and the walk ends normally once the tokens run out. -/
theorem walk_continues_after_pageless_page (fetch : JVal → FetchOutcome)
    (fs : List (String × JVal)) (xs0 : List JVal) (pages : List JVal)
    (hval : jget (.obj fs) "value" = some (.arr xs0))
    (hchain : chainPages fetch 99 (jget (.obj fs) "@odata.nextLink") =
      some pages) :
    (aggregateAllPages fetch (.obj fs)).errored = false ∧
    (aggregateAllPages fetch (.obj fs)).aborted = false ∧
    (aggregateAllPages fetch (.obj fs)).fetches = pages.length ∧
    jget (aggregateAllPages fetch (.obj fs)).result "value" =
      some (.arr (xs0 ++ (pages.map pageItems).flatten)) ∧
    (∀ j, jget j "value" = none → pageItems j = []) := by
  have hwalk := walkAux_chainPages fetch 99
    (jget (.obj fs) "@odata.nextLink") pages 100 1 0 xs0 hchain (by omega)
    (by omega)
  have key : aggregateAllPages fetch (.obj fs) =
      { result := finishCombined (.obj fs)
          (.arr (xs0 ++ (pages.map pageItems).flatten)),
        pageCount := 1 + pages.length, fetches := 0 + pages.length,
        errored := false, aborted := false } := by
    simp only [aggregateAllPages, hval, truthy, if_true, hwalk]
  rw [key]
  refine ⟨rfl, rfl, by simp, finishCombined_value _ _, ?_⟩
  intro j hj
  simp [pageItems, hj]

/-- Claim C9, witness for the amended theorem at a concrete three-page
chain whose middle page has no items array but a further link. -/
theorem walk_continues_after_pageless_page_witness :
    (aggregateAllPages c9Fetch c9Page).errored = false ∧
    (aggregateAllPages c9Fetch c9Page).aborted = false ∧
    (aggregateAllPages c9Fetch c9Page).fetches =
      [JVal.obj [("@odata.nextLink", .str "t2")],
       .obj [("value", .arr [.num 2])]].length ∧
    jget (aggregateAllPages c9Fetch c9Page).result "value" =
      some (.arr ([JVal.num 1] ++
        ([JVal.obj [("@odata.nextLink", .str "t2")],
          .obj [("value", .arr [.num 2])]].map pageItems).flatten)) ∧
    (∀ j, jget j "value" = none → pageItems j = []) :=
  walk_continues_after_pageless_page c9Fetch
    [("value", .arr [.num 1]), ("@odata.nextLink", .str "t1")]
    [.num 1]
    [.obj [("@odata.nextLink", .str "t2")], .obj [("value", .arr [.num 2])]]
    rfl rfl
